import Mathlib

/-!
Verification development for the time-ordered sensor buffer of `mars_lib`.

The repository ships the buffer's test suite
(`source/tests/mars-test/mars_buffer.cpp`); the buffer implementation itself
(`mars::Buffer`, `mars::BufferEntryType`, `mars::BufferDataType`) is not part
of the available sources, so the definitions below are modelled from the
specification's data model (§3) and component design (§4), with the test
suite pinning the concrete input/output behaviour.

Timestamps (`mars::Time`, a real number of time units with fractional
resolution) are embedded as rationals; payloads are opaque to the buffer and
are embedded as optional identities; sensor handles are identity-compared
opaque tokens, embedded as natural numbers.
-/

namespace Mars

/-- Modelled from the spec: the payload envelope (`mars::BufferDataType`) may
independently hold a core-filter state, a sensor state and a measurement,
each an opaque shared-ownership payload (modelled by an optional identity). -/
structure BufferDataType where
  core_state : Option Nat := none
  sensor_state : Option Nat := none
  measurement : Option Nat := none
deriving DecidableEq

/-- Modelled from the spec: `set_states` stores both the core and the sensor
state payload of the envelope. -/
def BufferDataType.set_states (d : BufferDataType) (core sensor : Nat) : BufferDataType :=
  { d with core_state := some core, sensor_state := some sensor }

/-- Modelled from the spec: `set_measurement` stores the measurement payload. -/
def BufferDataType.set_measurement (d : BufferDataType) (m : Nat) : BufferDataType :=
  { d with measurement := some m }

/-- Modelled from the spec: clearing "states" means dropping `core_state` and
`sensor_state` while retaining `measurement`. -/
def BufferDataType.ClearStates (d : BufferDataType) : BufferDataType :=
  { d with core_state := none, sensor_state := none }

/-- Modelled from the spec: an envelope "has states" iff both the core state
and the sensor state are present. -/
def BufferDataType.HasStates (d : BufferDataType) : Bool :=
  d.core_state.isSome && d.sensor_state.isSome

/-- Modelled from the spec: the role tag (`mars::BufferMetadataType`)
classifying an entry's purpose. -/
inductive BufferMetadataType where
  | measurement
  | state
  | init
  | out_of_order
  | auto_add
deriving DecidableEq

/-- Whether a role tag marks a synthetic auto-added entry. -/
def BufferMetadataType.isAutoAdded : BufferMetadataType → Bool
  | .auto_add => true
  | _ => false

/-- Modelled from the spec: one buffer record (`mars::BufferEntryType`):
timestamp, payload envelope, sensor handle and role tag. -/
structure BufferEntryType where
  timestamp : ℚ
  data : BufferDataType
  sensor_handle : Nat
  metadata : BufferMetadataType := .measurement
deriving DecidableEq

/-- An entry "has a state" iff its envelope carries both states. -/
def BufferEntryType.HasStates (e : BufferEntryType) : Bool :=
  e.data.HasStates

/-! ## Insertion (spec §4.1), on the underlying entry list -/

/-- Timestamp-ordering test used by sorted insertion. -/
def tsLE (a b : BufferEntryType) : Bool :=
  decide (a.timestamp ≤ b.timestamp)

/-- Modelled from the spec: `AddEntrySorted` inserts the entry at the correct
sorted position, after the last entry with the same or an earlier timestamp
(stable, append-like at ties), and returns the index at which the entry now
resides.  It triggers no eviction by itself. -/
def addEntrySorted (l : List BufferEntryType) (e : BufferEntryType) :
    Nat × List BufferEntryType :=
  ((l.takeWhile (fun x => tsLE x e)).length,
    l.takeWhile (fun x => tsLE x e) ++ e :: l.dropWhile (fun x => tsLE x e))

/-- Modelled from the spec: `InsertDataAtTimestamp` has a contract identical
to `AddEntrySorted` and returns the resulting index. -/
def insertDataAtTimestamp (l : List BufferEntryType) (e : BufferEntryType) :
    Nat × List BufferEntryType :=
  addEntrySorted l e

/-! ## Eviction (spec §4.2), on the underlying entry list -/

/-- Modelled from the spec: entry `i` is protected from eviction iff it is
the last remaining state-bearing entry for its sensor handle, with no newer
state-bearing entry for that handle behind it (invariant 3). -/
def isLastSensorStateAt (l : List BufferEntryType) (i : Nat) : Bool :=
  match l[i]? with
  | none => false
  | some e =>
      e.HasStates &&
        (l.drop (i + 1)).all fun x => !(x.sensor_handle == e.sensor_handle && x.HasStates)

/-- Index of the oldest evictable entry: the first entry, scanning from the
oldest, whose removal does not violate the last-state protection. -/
def findEvictIdx (l : List BufferEntryType) : Option Nat :=
  (List.range l.length).find? fun i => !isLastSensorStateAt l i

/-- Fuel-indexed eviction loop: while the length exceeds the maximum size,
remove the oldest evictable entry; stop when no entry is evictable. -/
def removeOverflowAux : Nat → Nat → List BufferEntryType → List BufferEntryType
  | 0, _, l => l
  | fuel + 1, maxSize, l =>
    if l.length ≤ maxSize then l
    else
      match findEvictIdx l with
      | none => l
      | some i => removeOverflowAux fuel maxSize (l.eraseIdx i)

/-- Modelled from the spec: `RemoveOverflowEntrys` removes, while the buffer
length exceeds `max_buffer_size`, the oldest entry unless removing it would
violate the last-state protection, in which case that candidate is skipped
and the next-oldest evictable entry is considered instead; the buffer may
therefore stabilize above its configured size. -/
def removeOverflowEntrys (maxSize : Nat) (l : List BufferEntryType) :
    List BufferEntryType :=
  removeOverflowAux l.length maxSize l

/-- Modelled from the spec: `ClearStatesStartingAtIdx` strips the states of
every entry at or after the given index (retaining measurements) and removes
outright any such entry whose role is auto-added. -/
def clearStatesStartingAtIdx (l : List BufferEntryType) (idx : Nat) :
    List BufferEntryType :=
  l.take idx ++
    ((l.drop idx).filter fun e => !e.metadata.isAutoAdded).map
      fun e => { e with data := e.data.ClearStates }

/-- Modelled from the spec: `RemoveSensorFromBuffer` removes every entry whose
sensor handle matches, regardless of role or protection. -/
def removeSensorFromBuffer (l : List BufferEntryType) (handle : Nat) :
    List BufferEntryType :=
  l.filter fun e => !(e.sensor_handle == handle)

/-! ## Queries (spec §4.3), on the underlying entry list -/

/-- The non-decreasing timestamp relation between entries. -/
def tsR (a b : BufferEntryType) : Prop := a.timestamp ≤ b.timestamp

instance : DecidableRel tsR := fun a b =>
  inferInstanceAs (Decidable (a.timestamp ≤ b.timestamp))

instance : IsTrans BufferEntryType tsR :=
  ⟨fun _ _ _ hab hbc => le_trans hab hbc⟩

/-- Modelled from the spec: `IsSorted` re-verifies that adjacent entries are
in non-decreasing timestamp order. -/
def isSortedL : List BufferEntryType → Bool
  | [] => true
  | [_] => true
  | a :: b :: rest => tsLE a b && isSortedL (b :: rest)

/-- Modelled from the spec: `get_latest_entry` returns the latest entry of
any role; it fails on an empty buffer. -/
def getLatestEntryL (l : List BufferEntryType) : Option BufferEntryType :=
  l.getLast?

/-- Modelled from the spec: `get_oldest_state` returns the oldest entry that
has a state. -/
def getOldestStateL (l : List BufferEntryType) : Option BufferEntryType :=
  (l.filter fun e => e.HasStates).head?

/-- Modelled from the spec: `get_latest_state` returns the newest entry that
has a state. -/
def getLatestStateL (l : List BufferEntryType) : Option BufferEntryType :=
  (l.filter fun e => e.HasStates).getLast?

/-- Modelled from the spec: `get_oldest_core_state` returns the oldest entry
carrying a core-filter state. -/
def getOldestCoreStateL (l : List BufferEntryType) : Option BufferEntryType :=
  (l.filter fun e => e.data.core_state.isSome).head?

/-- Modelled from the spec: `get_latest_init_state` returns the newest entry
tagged with the init role. -/
def getLatestInitStateL (l : List BufferEntryType) : Option BufferEntryType :=
  (l.filter fun e => e.metadata == BufferMetadataType.init).getLast?

/-- Modelled from the spec: `get_latest_sensor_handle_state` returns the
newest state-bearing entry for the given sensor handle together with its
index in the buffer. -/
def getLatestSensorHandleStateL (l : List BufferEntryType) (handle : Nat) :
    Option (Nat × BufferEntryType) :=
  (l.enum.filter fun p => p.2.sensor_handle == handle && p.2.HasStates).getLast?

/-- The index output of `get_latest_sensor_handle_state`: `-1` on failure. -/
def getLatestSensorHandleStateIdx (l : List BufferEntryType) (handle : Nat) : Int :=
  match getLatestSensorHandleStateL l handle with
  | none => -1
  | some p => (p.1 : Int)

/-- Modelled from the spec, with the behaviour pinned by the test suite
(`GET_ENTRY_METHODS`, `REMOVE_SENSOR_FROM_BUFFER`):
`get_latest_sensor_handle_measurement` returns the newest entry of any role
for the given sensor handle; the tests require success for entries whose
envelope holds no measurement payload at all. -/
def getLatestSensorHandleMeasurementL (l : List BufferEntryType) (handle : Nat) :
    Option BufferEntryType :=
  (l.filter fun e => e.sensor_handle == handle).getLast?

/-- The spec's table row for `get_latest_sensor_handle_measurement`, taken
literally: the newest entry for the sensor that carries a measurement
payload.  Kept separately to compare against the test-pinned behaviour. -/
def latestSensorHandleMeasurementSpecRule (l : List BufferEntryType) (handle : Nat) :
    Option BufferEntryType :=
  (l.filter fun e => e.sensor_handle == handle && e.data.measurement.isSome).getLast?

/-- Modelled from the spec: `get_entry_at_idx` returns the entry at the given
index and fails for a negative or too-large index. -/
def getEntryAtIdxL (l : List BufferEntryType) (idx : Int) : Option BufferEntryType :=
  if 0 ≤ idx then l[idx.toNat]? else none

/-- The state-bearing entries of the buffer, with their indices. -/
def stateEntriesIdx (l : List BufferEntryType) : List (Nat × BufferEntryType) :=
  l.enum.filter fun p => p.2.HasStates

/-- Modelled from the spec: `get_closest_state` scans only entries that have
a state; an exact timestamp match is returned directly; otherwise the
state-bearing neighbor with the smaller absolute time distance is returned,
an exact tie preferring the newer one; a query beyond the newest (oldest)
state returns the newest (oldest) state.  The original index is returned
alongside the entry. -/
def getClosestStateL (l : List BufferEntryType) (t : ℚ) :
    Option (Nat × BufferEntryType) :=
  match ((stateEntriesIdx l).filter fun p => p.2.timestamp == t).getLast? with
  | some p => some p
  | none =>
    match ((stateEntriesIdx l).filter fun p => decide (p.2.timestamp < t)).getLast?,
        ((stateEntriesIdx l).filter fun p => decide (t < p.2.timestamp)).head? with
    | none, none => none
    | some o, none => some o
    | none, some n => some n
    | some o, some n =>
        if n.2.timestamp - t ≤ t - o.2.timestamp then some n else some o

/-- The index output of `get_closest_state`: `-1` on failure. -/
def getClosestStateIdx (l : List BufferEntryType) (t : ℚ) : Int :=
  match getClosestStateL l t with
  | none => -1
  | some p => (p.1 : Int)

/-! ## The buffer object (spec §3 invariant 4, §6) -/

/-- Modelled from the spec: the buffer is an ordered bounded collection of
entries; `max_buffer_size` is configured at construction. -/
structure Buffer where
  max_buffer_size : Int
  data : List BufferEntryType
deriving DecidableEq

/-- Modelled from the spec: construction with a requested maximum size takes
the absolute value of a negative argument, with a minimum size of 1. -/
def Buffer.init (size : Int) : Buffer :=
  { max_buffer_size := (max 1 size.natAbs : Nat), data := [] }

def Buffer.get_max_buffer_size (b : Buffer) : Int :=
  b.max_buffer_size

/-- Modelled from the spec: a non-positive value passed to the setter is
rejected as a silent no-op; a positive value is stored as given. -/
def Buffer.set_max_buffer_size (b : Buffer) (size : Int) : Buffer :=
  if 0 < size then { b with max_buffer_size := size } else b

def Buffer.get_length (b : Buffer) : Nat :=
  b.data.length

def Buffer.IsEmpty (b : Buffer) : Bool :=
  b.data.isEmpty

/-- Modelled from the spec: `ResetBufferData` empties the buffer completely. -/
def Buffer.ResetBufferData (b : Buffer) : Buffer :=
  { b with data := [] }

def Buffer.AddEntrySorted (b : Buffer) (e : BufferEntryType) : Nat × Buffer :=
  ((addEntrySorted b.data e).1, { b with data := (addEntrySorted b.data e).2 })

def Buffer.InsertDataAtTimestamp (b : Buffer) (e : BufferEntryType) : Nat × Buffer :=
  ((insertDataAtTimestamp b.data e).1, { b with data := (insertDataAtTimestamp b.data e).2 })

def Buffer.RemoveOverflowEntrys (b : Buffer) : Buffer :=
  { b with data := removeOverflowEntrys b.max_buffer_size.toNat b.data }

def Buffer.ClearStatesStartingAtIdx (b : Buffer) (idx : Nat) : Buffer :=
  { b with data := clearStatesStartingAtIdx b.data idx }

def Buffer.RemoveSensorFromBuffer (b : Buffer) (handle : Nat) : Buffer :=
  { b with data := removeSensorFromBuffer b.data handle }

def Buffer.IsSorted (b : Buffer) : Bool := isSortedL b.data
def Buffer.get_latest_entry (b : Buffer) := getLatestEntryL b.data
def Buffer.get_oldest_state (b : Buffer) := getOldestStateL b.data
def Buffer.get_latest_state (b : Buffer) := getLatestStateL b.data
def Buffer.get_oldest_core_state (b : Buffer) := getOldestCoreStateL b.data
def Buffer.get_latest_init_state (b : Buffer) := getLatestInitStateL b.data
def Buffer.get_latest_sensor_handle_state (b : Buffer) (h : Nat) :=
  getLatestSensorHandleStateL b.data h
def Buffer.get_latest_sensor_handle_state_idx (b : Buffer) (h : Nat) : Int :=
  getLatestSensorHandleStateIdx b.data h
def Buffer.get_latest_sensor_handle_measurement (b : Buffer) (h : Nat) :=
  getLatestSensorHandleMeasurementL b.data h
def Buffer.get_entry_at_idx (b : Buffer) (idx : Int) := getEntryAtIdxL b.data idx
def Buffer.get_closest_state (b : Buffer) (t : ℚ) := getClosestStateL b.data t
def Buffer.get_closest_state_idx (b : Buffer) (t : ℚ) : Int := getClosestStateIdx b.data t

/-! ## Concrete scenarios from the repository's test suite
(`source/tests/mars-test/mars_buffer.cpp`) -/

/-- The `data_no_state_` fixture: an empty payload envelope. -/
def dataNoState : BufferDataType := {}

/-- The `data_with_state_` fixture: both state payloads set, no measurement. -/
def dataWithState : BufferDataType := BufferDataType.set_states {} 13 15

/-- Entry builder mirroring the `BufferEntryType` constructor of the tests. -/
def mkE (t : ℚ) (d : BufferDataType) (h : Nat)
    (m : BufferMetadataType := .measurement) : BufferEntryType :=
  { timestamp := t, data := d, sensor_handle := h, metadata := m }

/-- One step of the standard flow: insert sorted, then evict overflow. -/
def stepAddEvict (b : Buffer) (e : BufferEntryType) : Buffer :=
  (b.AddEntrySorted e).2.RemoveOverflowEntrys

/-- Insert a list of entries via `AddEntrySorted` into a fresh large buffer. -/
def addAll (es : List BufferEntryType) : Buffer :=
  es.foldl (fun b e => (b.AddEntrySorted e).2) (Buffer.init 300)

/-- `STORAGE_MAX_ENTRY`, third case: max size 10, 20 unit-spaced state-bearing
entries, pose sensor 1 contributing at timestamps 0, 5 and 9 only. -/
def storageMax3 : Buffer :=
  (List.range 20).foldl
    (fun b k =>
      stepAddEvict b
        (mkE k dataWithState (if k == 0 || k == 5 || k == 9 then 1 else 2) .state))
    (Buffer.init 10)

/-- `STORAGE_MAX_ENTRY`, first case: max size 10, 20 unit-spaced state-bearing
entries, all from one pose sensor. -/
def storageMax1Entries : List BufferEntryType :=
  (List.range 20).map fun k => mkE k dataWithState 1 .state

/-- `GET_ENTRY_METHODS`: 11 entries at timestamps 0..10 from two pose
sensors, mixing state-bearing, measurement-only, init and out-of-order
entries. -/
def gemBuffer : Buffer := addAll
  [ mkE 0 dataNoState 1, mkE 1 dataWithState 1 .init, mkE 2 dataWithState 2 .init,
    mkE 3 dataNoState 1, mkE 4 dataWithState 2, mkE 5 dataWithState 1,
    mkE 6 dataNoState 2, mkE 7 dataWithState 1, mkE 8 dataWithState 2,
    mkE 9 dataNoState 1 .out_of_order, mkE 10 dataNoState 2 .out_of_order ]

/-- `GET_CLOSEST_STATE`, first phase: four measurement-only entries. -/
def gcsMeasOnly : Buffer := addAll
  [ mkE 0 dataNoState 1, mkE 1 dataNoState 1, mkE 2 dataNoState 1, mkE 3 dataNoState 1 ]

/-- `GET_CLOSEST_STATE`, full buffer: entries at timestamps 0..9 with
state-bearing entries at 4, 6, 7 and 9. -/
def gcsBuffer : Buffer := addAll
  [ mkE 0 dataNoState 1, mkE 1 dataNoState 1, mkE 2 dataNoState 1, mkE 3 dataNoState 1,
    mkE 4 dataWithState 1 .init, mkE 5 dataNoState 1, mkE 6 dataWithState 1,
    mkE 7 dataWithState 1, mkE 8 dataNoState 1, mkE 9 dataWithState 1 ]

/-- `REMOVE_STATES_STARTING_AT_IDX`: ten entries at timestamps 0..9
alternating state-bearing and measurement-only. -/
def rsBuffer : Buffer := addAll
  [ mkE 0 dataWithState 1, mkE 1 dataNoState 1, mkE 2 dataWithState 1, mkE 3 dataNoState 1,
    mkE 4 dataWithState 1, mkE 5 dataNoState 1, mkE 6 dataWithState 1, mkE 7 dataNoState 1,
    mkE 8 dataWithState 1, mkE 9 dataNoState 1 ]

/-- The same buffer after `ClearStatesStartingAtIdx(4)`. -/
def rsCleared : Buffer := rsBuffer.ClearStatesStartingAtIdx 4

/-- The cleared buffer with an auto-added entry appended at timestamp 10. -/
def rsWithAuto : Buffer := (rsCleared.AddEntrySorted (mkE 10 dataNoState 1 .auto_add)).2

/-- `GET_CLOSEST_STATE_ONLY_ONE_STATE_IN_BUFFER`: a measurement-only entry
and then a state-bearing entry, both at timestamp 0 for the same sensor. -/
def oneStateBuffer : Buffer :=
  ((((Buffer.init 300).AddEntrySorted (mkE 0 dataNoState 3)).2).AddEntrySorted
    (mkE 0 dataWithState 3)).2

/-! ## Timestamp ordering helpers -/

theorem isSortedL_iff_pairwise {l : List BufferEntryType} :
    isSortedL l = true ↔ List.Pairwise tsR l := by
  rw [← List.chain'_iff_pairwise]
  induction l with
  | nil => simp [isSortedL]
  | cons a l ih =>
    cases l with
    | nil => simp [isSortedL]
    | cons b rest =>
      rw [isSortedL, List.chain'_cons]
      constructor
      · intro h
        obtain ⟨h1, h2⟩ := Bool.and_eq_true_iff.mp h
        refine ⟨?_, ih.mp h2⟩
        have : a.timestamp ≤ b.timestamp := by
          simpa [tsLE] using h1
        exact this
      · intro h
        obtain ⟨h1, h2⟩ := h
        refine Bool.and_eq_true_iff.mpr ⟨?_, ih.mpr h2⟩
        simpa [tsLE] using h1

theorem dropWhile_head_not {α : Type _} {p : α → Bool} {l : List α} {d : α} {D : List α}
    (h : l.dropWhile p = d :: D) : p d = false := by
  induction l with
  | nil => simp [List.dropWhile] at h
  | cons x xs ih =>
    rw [List.dropWhile_cons] at h
    by_cases hx : p x = true
    · rw [if_pos hx] at h; exact ih h
    · rw [if_neg hx] at h
      cases h
      simpa using hx

/-- Sorted insertion preserves the non-decreasing timestamp order. -/
theorem pairwise_addEntrySorted {l : List BufferEntryType} (e : BufferEntryType)
    (h : List.Pairwise tsR l) : List.Pairwise tsR (addEntrySorted l e).2 := by
  have hsplit : List.Pairwise tsR
      (l.takeWhile (fun x => tsLE x e) ++ l.dropWhile (fun x => tsLE x e)) := by
    rw [List.takeWhile_append_dropWhile]; exact h
  rw [List.pairwise_append] at hsplit
  obtain ⟨hT, hD, hTD⟩ := hsplit
  show List.Pairwise tsR (_ ++ e :: _)
  rw [List.pairwise_append]
  refine ⟨hT, ?_, ?_⟩
  · rw [List.pairwise_cons]
    refine ⟨?_, hD⟩
    intro b hb
    match hdw : l.dropWhile (fun x => tsLE x e) with
    | [] => rw [hdw] at hb; simp at hb
    | d :: D =>
      have hd := dropWhile_head_not hdw
      have hde : e.timestamp ≤ d.timestamp := by
        have : ¬ d.timestamp ≤ e.timestamp := by
          simpa [tsLE] using hd
        exact le_of_lt (lt_of_not_le this)
      rw [hdw] at hb
      rcases List.mem_cons.mp hb with rfl | hb'
      · exact hde
      · have hdb : tsR d b := by
          rw [hdw] at hD
          exact List.rel_of_pairwise_cons hD hb'
        exact le_trans hde hdb
  · intro a ha b hb
    have hae : tsR a e := by
      have := List.mem_takeWhile_imp ha
      simpa [tsLE, tsR] using this
    rcases List.mem_cons.mp hb with rfl | hb'
    · exact hae
    · exact hTD a ha b hb'

theorem length_addEntrySorted (l : List BufferEntryType) (e : BufferEntryType) :
    (addEntrySorted l e).2.length = l.length + 1 := by
  show (_ ++ e :: _).length = _
  rw [List.length_append, List.length_cons]
  have := congrArg List.length (List.takeWhile_append_dropWhile (fun x => tsLE x e) l)
  rw [List.length_append] at this
  omega

theorem mem_addEntrySorted {l : List BufferEntryType} {e x : BufferEntryType}
    (hx : x ∈ (addEntrySorted l e).2) : x = e ∨ x ∈ l := by
  have : x ∈ l.takeWhile (fun y => tsLE y e) ++ e :: l.dropWhile (fun y => tsLE y e) := hx
  rw [List.mem_append, List.mem_cons] at this
  rcases this with hT | rfl | hD
  · exact Or.inr ((List.takeWhile_sublist _).subset hT)
  · exact Or.inl rfl
  · exact Or.inr ((List.dropWhile_sublist _).subset hD)

/-! ## Last-state protection under eviction -/

/-- Whether an entry is a state-bearing entry of the given sensor handle. -/
def isStateOf (h : Nat) (e : BufferEntryType) : Bool :=
  e.sensor_handle == h && e.HasStates

/-- The newest state-bearing entry of the given sensor handle, if any: the
entry that invariant 3 protects from eviction. -/
def lastStateFor (h : Nat) (l : List BufferEntryType) : Option BufferEntryType :=
  (l.filter (isStateOf h)).getLast?

theorem getLast?_cons_of_ne_nil {α : Type _} {a : α} {l : List α} (h : l ≠ []) :
    (a :: l).getLast? = l.getLast? := by
  cases l with
  | nil => exact absurd rfl h
  | cons b bs => exact List.getLast?_cons_cons

theorem isLastSensorStateAt_eq {l : List BufferEntryType} {i : Nat}
    {e : BufferEntryType} (hget : l[i]? = some e) :
    isLastSensorStateAt l i =
      (e.HasStates &&
        (l.drop (i + 1)).all fun x =>
          !(x.sensor_handle == e.sensor_handle && x.HasStates)) := by
  unfold isLastSensorStateAt
  rw [hget]

theorem findEvictIdx_spec {l : List BufferEntryType} {i : Nat}
    (h : findEvictIdx l = some i) :
    i < l.length ∧ isLastSensorStateAt l i = false := by
  refine ⟨List.mem_range.mp (List.mem_of_find?_eq_some h), ?_⟩
  have := List.find?_some h
  simpa using this

/-- Erasing an unprotected index never changes the newest state-bearing
entry of any sensor handle. -/
theorem lastStateFor_eraseIdx {l : List BufferEntryType} {i : Nat}
    (hi : i < l.length) (hnp : isLastSensorStateAt l i = false) (h : Nat) :
    lastStateFor h (l.eraseIdx i) = lastStateFor h l := by
  have hdecomp : l = l.take i ++ l[i] :: l.drop (i + 1) := by
    conv_lhs => rw [← List.take_append_drop i l]
    rw [List.drop_eq_getElem_cons hi]
  unfold lastStateFor
  rw [List.eraseIdx_eq_take_drop_succ]
  conv_rhs => rw [hdecomp]
  rw [List.filter_append, List.filter_append]
  by_cases hpe : isStateOf h l[i] = true
  · have hget : l[i]? = some l[i] := List.getElem?_eq_getElem hi
    have hpe' : l[i].sensor_handle = h ∧ l[i].HasStates = true := by
      simpa [isStateOf] using hpe
    have hstate : l[i].HasStates = true := hpe'.2
    have hhandle : l[i].sensor_handle = h := hpe'.1
    have hex : ∃ x ∈ l.drop (i + 1),
        (x.sensor_handle == l[i].sensor_handle && x.HasStates) = true := by
      by_contra hno
      push_neg at hno
      have hall : (l.drop (i + 1)).all
          (fun x => !(x.sensor_handle == l[i].sensor_handle && x.HasStates)) = true := by
        rw [List.all_eq_true]
        intro x hx
        have hcf : (x.sensor_handle == l[i].sensor_handle && x.HasStates) = false :=
          Bool.eq_false_iff.mpr (hno x hx)
        rw [hcf]
        rfl
      rw [isLastSensorStateAt_eq hget, hstate, hall] at hnp
      simp at hnp
    obtain ⟨x, hxmem, hxprop⟩ := hex
    have hxstate : isStateOf h x = true := by
      unfold isStateOf
      rw [hhandle] at hxprop
      exact hxprop
    have hne : (l.drop (i + 1)).filter (isStateOf h) ≠ [] := by
      intro hnil
      have := List.mem_filter.mpr ⟨hxmem, hxstate⟩
      rw [hnil] at this
      simp at this
    rw [List.filter_cons_of_pos hpe]
    rw [List.getLast?_append, List.getLast?_append]
    rw [getLast?_cons_of_ne_nil hne]
  · rw [List.filter_cons_of_neg hpe]

theorem lastStateFor_removeOverflowAux (fuel maxSize : Nat) :
    ∀ (l : List BufferEntryType) (h : Nat),
      lastStateFor h (removeOverflowAux fuel maxSize l) = lastStateFor h l := by
  induction fuel with
  | zero => intro l h; rfl
  | succ fuel ih =>
    intro l h
    unfold removeOverflowAux
    split
    · rfl
    · cases hf : findEvictIdx l with
      | none => rfl
      | some i =>
        obtain ⟨hi, hnp⟩ := findEvictIdx_spec hf
        rw [ih (l.eraseIdx i) h, lastStateFor_eraseIdx hi hnp h]

/-- Eviction preserves, for every sensor handle, its newest state-bearing
entry. -/
theorem lastStateFor_removeOverflowEntrys (maxSize : Nat)
    (l : List BufferEntryType) (h : Nat) :
    lastStateFor h (removeOverflowEntrys maxSize l) = lastStateFor h l :=
  lastStateFor_removeOverflowAux l.length maxSize l h

theorem removeOverflowAux_subset :
    ∀ (fuel maxSize : Nat) (l : List BufferEntryType),
      removeOverflowAux fuel maxSize l ⊆ l := by
  intro fuel
  induction fuel with
  | zero => intro _ l; exact fun _ hx => hx
  | succ fuel ih =>
    intro maxSize l
    unfold removeOverflowAux
    split
    · exact fun _ hx => hx
    · cases hf : findEvictIdx l with
      | none => exact fun _ hx => hx
      | some i =>
        intro x hx
        exact List.eraseIdx_subset l i (ih maxSize (l.eraseIdx i) hx)

/-! ## Insertion sequences -/

/-- One insertion call of an insertion sequence: `AddEntrySorted` when the
flag is true, `InsertDataAtTimestamp` otherwise. -/
def insertStep (l : List BufferEntryType) (te : Bool × BufferEntryType) :
    List BufferEntryType :=
  if te.1 then (addEntrySorted l te.2).2 else (insertDataAtTimestamp l te.2).2

/-- The buffer contents after an arbitrary insertion sequence mixing
`AddEntrySorted` and `InsertDataAtTimestamp` calls, started empty. -/
def insertAll (es : List (Bool × BufferEntryType)) : List BufferEntryType :=
  es.foldl insertStep []

theorem insertAll_aux (es : List (Bool × BufferEntryType)) :
    ∀ l : List BufferEntryType, List.Pairwise tsR l →
      List.Pairwise tsR (es.foldl insertStep l) ∧
        (es.foldl insertStep l).length = l.length + es.length := by
  induction es with
  | nil => intro l hl; simpa using hl
  | cons te es ih =>
    intro l hl
    rw [List.foldl_cons]
    have hstep : List.Pairwise tsR (insertStep l te) ∧
        (insertStep l te).length = l.length + 1 := by
      unfold insertStep insertDataAtTimestamp
      cases te.1 <;>
        simp [pairwise_addEntrySorted _ hl, length_addEntrySorted]
    obtain ⟨h1, h2⟩ := ih (insertStep l te) hstep.1
    refine ⟨h1, ?_⟩
    rw [h2, hstep.2, List.length_cons]
    omega

/-! ## Bounded-size convergence for a single sensor handle -/

/-- All entries of the list belong to the given sensor handle. -/
def allHandle (h : Nat) (l : List BufferEntryType) : Prop :=
  ∀ e ∈ l, e.sensor_handle = h

/-- In a single-handle buffer, at most one entry is protected from
eviction. -/
theorem isLastSensorStateAt_unique {l : List BufferEntryType} {h : Nat}
    (hall : allHandle h l) {i j : Nat}
    (hij : i < j) (hj : j < l.length)
    (hpi : isLastSensorStateAt l i = true)
    (hpj : isLastSensorStateAt l j = true) : False := by
  have hi : i < l.length := lt_trans hij hj
  have hgi : l[i]? = some l[i] := List.getElem?_eq_getElem hi
  have hgj : l[j]? = some l[j] := List.getElem?_eq_getElem hj
  rw [isLastSensorStateAt_eq hgi] at hpi
  rw [isLastSensorStateAt_eq hgj] at hpj
  have hpi' := Bool.and_eq_true_iff.mp hpi
  have hpj' := Bool.and_eq_true_iff.mp hpj
  -- the entry at j lies behind i and is state-bearing with the same handle
  have hjd : j - (i + 1) < (l.drop (i + 1)).length := by
    rw [List.length_drop]
    omega
  have hmem : l[j] ∈ l.drop (i + 1) := by
    rw [List.mem_iff_getElem]
    refine ⟨j - (i + 1), hjd, ?_⟩
    rw [List.getElem_drop]
    congr 1
    omega
  have hxall := List.all_eq_true.mp hpi'.2 _ hmem
  have hhi : l[i].sensor_handle = h := hall _ (List.getElem_mem hi)
  have hhj : l[j].sensor_handle = h := hall _ (List.getElem_mem hj)
  rw [Bool.not_eq_true'] at hxall
  have : (l[j].sensor_handle == l[i].sensor_handle && l[j].HasStates) = true := by
    rw [hhi, hhj, hpj'.1]
    simp
  rw [this] at hxall
  simp at hxall

/-- In a single-handle buffer of at least two entries, some entry is
evictable. -/
theorem findEvictIdx_isSome_of_allHandle {l : List BufferEntryType} {h : Nat}
    (hall : allHandle h l) (hlen : 2 ≤ l.length) :
    ∃ i, findEvictIdx l = some i := by
  cases hf : findEvictIdx l with
  | some i => exact ⟨i, rfl⟩
  | none =>
    exfalso
    have hforall := List.find?_eq_none.mp hf
    have hp : ∀ k, k < l.length → isLastSensorStateAt l k = true := by
      intro k hk
      have := hforall k (List.mem_range.mpr hk)
      simpa using this
    exact isLastSensorStateAt_unique hall (show (0 : Nat) < 1 by omega)
      (by omega) (hp 0 (by omega)) (hp 1 (by omega))

theorem length_removeOverflowAux {h : Nat} :
    ∀ (fuel maxSize : Nat) (l : List BufferEntryType), allHandle h l →
      1 ≤ maxSize → l.length ≤ fuel →
      (removeOverflowAux fuel maxSize l).length = min l.length maxSize := by
  intro fuel
  induction fuel with
  | zero =>
    intro maxSize l _ hmax hlen
    have h0 : l.length = 0 := by omega
    unfold removeOverflowAux
    rw [Nat.min_eq_left (by omega)]
  | succ fuel ih =>
    intro maxSize l hall hmax hlen
    unfold removeOverflowAux
    by_cases hle : l.length ≤ maxSize
    · rw [if_pos hle, Nat.min_eq_left hle]
    · rw [if_neg hle]
      have hlen2 : 2 ≤ l.length := by omega
      obtain ⟨i, hf⟩ := findEvictIdx_isSome_of_allHandle hall hlen2
      rw [hf]
      obtain ⟨hi, _⟩ := findEvictIdx_spec hf
      have hall' : allHandle h (l.eraseIdx i) := fun e he =>
        hall e (List.eraseIdx_subset l i he)
      have hlen' : (l.eraseIdx i).length = l.length - 1 := by
        rw [List.length_eraseIdx, if_pos hi]
      rw [ih maxSize _ hall' hmax (by omega), hlen',
        Nat.min_eq_right (by omega), Nat.min_eq_right (by omega)]

/-- One step of the standard single-sensor flow on the entry list: sorted
insertion followed by overflow removal. -/
def addEvictStep (maxSize : Nat) (l : List BufferEntryType)
    (e : BufferEntryType) : List BufferEntryType :=
  removeOverflowEntrys maxSize (addEntrySorted l e).2

theorem foldl_addEvictStep_length {h maxSize : Nat} (hmax : 1 ≤ maxSize) :
    ∀ (es : List BufferEntryType) (l : List BufferEntryType),
      (∀ e ∈ es, e.sensor_handle = h) → allHandle h l → l.length ≤ maxSize →
      (es.foldl (addEvictStep maxSize) l).length = min (l.length + es.length) maxSize := by
  intro es
  induction es with
  | nil =>
    intro l _ _ hl
    simpa using (Nat.min_eq_left hl).symm
  | cons e es ih =>
    intro l hes hall hl
    rw [List.foldl_cons]
    have halladd : allHandle h (addEntrySorted l e).2 := by
      intro x hx
      rcases mem_addEntrySorted hx with rfl | hx'
      · exact hes x (List.mem_cons_self _ _)
      · exact hall x hx'
    have hlen1 : (addEvictStep maxSize l e).length = min (l.length + 1) maxSize := by
      unfold addEvictStep removeOverflowEntrys
      rw [length_removeOverflowAux _ maxSize _ halladd hmax (le_refl _),
        length_addEntrySorted]
    have hall1 : allHandle h (addEvictStep maxSize l e) := by
      intro x hx
      have hx' : x ∈ (addEntrySorted l e).2 :=
        removeOverflowAux_subset _ maxSize _ hx
      exact halladd x hx'
    have hl1 : (addEvictStep maxSize l e).length ≤ maxSize := by
      rw [hlen1]; exact Nat.min_le_right _ _
    rw [ih (addEvictStep maxSize l e) (fun x hx => hes x (List.mem_cons_of_mem _ hx))
      hall1 hl1, hlen1, List.length_cons]
    omega

/-- The buffer-level step keeps the configured size and acts on the data
list as the list-level step. -/
theorem foldl_stepAddEvict_data (es : List BufferEntryType) :
    ∀ b : Buffer,
      (es.foldl stepAddEvict b).data =
          es.foldl (addEvictStep b.max_buffer_size.toNat) b.data ∧
        (es.foldl stepAddEvict b).max_buffer_size = b.max_buffer_size := by
  induction es with
  | nil => intro b; exact ⟨rfl, rfl⟩
  | cons e es ih =>
    intro b
    rw [List.foldl_cons, List.foldl_cons]
    obtain ⟨ha, hb⟩ := ih (stepAddEvict b e)
    refine ⟨?_, ?_⟩
    · rw [ha]
      rfl
    · rw [hb]
      rfl

/-! ## List-order helpers for queries -/

theorem getLast?_max_of_pairwise {α : Type _} {R : α → α → Prop} :
    ∀ {l : List α} {a : α}, List.Pairwise R l → l.getLast? = some a →
      ∀ x ∈ l, x = a ∨ R x a := by
  intro l
  induction l with
  | nil => intro a _ h; simp at h
  | cons y ys ih =>
    intro a hp hl x hx
    obtain ⟨hy, hys⟩ := List.pairwise_cons.mp hp
    cases ys with
    | nil =>
      have hya : y = a := by simpa using hl
      rcases List.mem_cons.mp hx with rfl | hx'
      · exact Or.inl hya
      · simp at hx'
    | cons z zs =>
      rw [List.getLast?_cons_cons] at hl
      rcases List.mem_cons.mp hx with rfl | hx'
      · exact Or.inr (hy a (List.mem_of_getLast?_eq_some hl))
      · exact ih hys hl x hx'

theorem head?_min_of_pairwise {α : Type _} {R : α → α → Prop} {l : List α} {a : α}
    (hp : List.Pairwise R l) (hl : l.head? = some a) :
    ∀ x ∈ l, x = a ∨ R a x := by
  cases l with
  | nil => simp at hl
  | cons y ys =>
    have hya : y = a := by simpa using hl
    subst hya
    intro x hx
    rcases List.mem_cons.mp hx with rfl | hx'
    · exact Or.inl rfl
    · exact Or.inr (List.rel_of_pairwise_cons hp hx')

theorem mem_enum_snd {l : List BufferEntryType} {p : Nat × BufferEntryType}
    (h : p ∈ l.enum) : p.2 ∈ l := by
  have := List.mem_map_of_mem Prod.snd h
  rwa [List.enum_map_snd] at this

theorem mem_enum_getElem {l : List BufferEntryType} {p : Nat × BufferEntryType}
    (h : p ∈ l.enum) : l[p.1]? = some p.2 := by
  rw [List.mem_iff_getElem] at h
  obtain ⟨j, hj, hje⟩ := h
  rw [List.getElem_enum] at hje
  cases hje
  exact List.getElem?_eq_getElem (by rw [List.enum_length] at hj; exact hj)

theorem mem_stateEntriesIdx {l : List BufferEntryType} {p : Nat × BufferEntryType}
    (h : p ∈ stateEntriesIdx l) : p.2 ∈ l ∧ p.2.HasStates = true := by
  rw [stateEntriesIdx, List.mem_filter] at h
  exact ⟨mem_enum_snd h.1, h.2⟩

theorem stateEntriesIdx_getElem {l : List BufferEntryType} {p : Nat × BufferEntryType}
    (h : p ∈ stateEntriesIdx l) : l[p.1]? = some p.2 := by
  rw [stateEntriesIdx, List.mem_filter] at h
  exact mem_enum_getElem h.1

theorem exists_mem_stateEntriesIdx {l : List BufferEntryType} {e : BufferEntryType}
    (hel : e ∈ l) (hes : e.HasStates = true) :
    ∃ p ∈ stateEntriesIdx l, p.2 = e := by
  have : e ∈ l.enum.map Prod.snd := by rw [List.enum_map_snd]; exact hel
  obtain ⟨p, hp, hpe⟩ := List.mem_map.mp this
  exact ⟨p, List.mem_filter.mpr ⟨hp, by rw [hpe]; exact hes⟩, hpe⟩

theorem pairwise_stateEntriesIdx {l : List BufferEntryType}
    (hs : List.Pairwise tsR l) :
    List.Pairwise (fun p q : Nat × BufferEntryType =>
      p.2.timestamp ≤ q.2.timestamp) (stateEntriesIdx l) := by
  have h1 : List.Pairwise tsR (l.enum.map Prod.snd) := by
    rw [List.enum_map_snd]; exact hs
  rw [List.pairwise_map] at h1
  exact List.Pairwise.sublist (List.filter_sublist _) h1

/-! ## Latest measurement per sensor handle -/

theorem latestSensorMeas_none_iff (l : List BufferEntryType) (h : Nat) :
    getLatestSensorHandleMeasurementL l h = none ↔
      ∀ e ∈ l, e.sensor_handle ≠ h := by
  unfold getLatestSensorHandleMeasurementL
  rw [List.getLast?_eq_none_iff, List.filter_eq_nil_iff]
  constructor
  · intro hf e he heq
    exact hf e he (by simp [heq])
  · intro hf e he
    simp [hf e he]

theorem latestSensorMeas_some {l : List BufferEntryType} {h : Nat}
    {e : BufferEntryType} (hr : getLatestSensorHandleMeasurementL l h = some e) :
    e ∈ l ∧ e.sensor_handle = h := by
  have hm := List.mem_of_getLast?_eq_some hr
  rw [List.mem_filter] at hm
  exact ⟨hm.1, by simpa using hm.2⟩

theorem latestSensorMeas_newest {l : List BufferEntryType} {h : Nat}
    {e : BufferEntryType} (hs : List.Pairwise tsR l)
    (hr : getLatestSensorHandleMeasurementL l h = some e) :
    ∀ x ∈ l, x.sensor_handle = h → x.timestamp ≤ e.timestamp := by
  intro x hx hxh
  have hp : List.Pairwise tsR (l.filter fun y => y.sensor_handle == h) :=
    List.Pairwise.sublist (List.filter_sublist l) hs
  have hxf : x ∈ l.filter (fun y => y.sensor_handle == h) :=
    List.mem_filter.mpr ⟨hx, by simp [hxh]⟩
  rcases getLast?_max_of_pairwise hp hr x hxf with rfl | hle
  · exact le_refl _
  · exact hle

/-! ## Clearing states from an index -/

theorem clearStates_take (l : List BufferEntryType) (idx : Nat) :
    (clearStatesStartingAtIdx l idx).take idx = l.take idx := by
  unfold clearStatesStartingAtIdx
  by_cases hle : idx ≤ l.length
  · exact List.take_left' (by rw [List.length_take]; omega)
  · have hlen : l.length ≤ idx := by omega
    rw [List.drop_eq_nil_of_le hlen]
    simp only [List.filter_nil, List.map_nil, List.append_nil]
    exact List.take_of_length_le (by rw [List.length_take]; omega)

theorem clearStates_drop (l : List BufferEntryType) (idx : Nat) :
    ∀ e ∈ (clearStatesStartingAtIdx l idx).drop idx,
      e.HasStates = false ∧ e.metadata.isAutoAdded = false := by
  unfold clearStatesStartingAtIdx
  by_cases hle : idx ≤ l.length
  · rw [List.drop_left' (by rw [List.length_take]; omega)]
    intro e he
    rw [List.mem_map] at he
    obtain ⟨x, hx, rfl⟩ := he
    rw [List.mem_filter] at hx
    refine ⟨rfl, ?_⟩
    simpa using hx.2
  · have hlen : l.length ≤ idx := by omega
    rw [List.drop_eq_nil_of_le hlen]
    simp only [List.filter_nil, List.map_nil, List.append_nil]
    intro e he
    rw [List.drop_eq_nil_of_le (by rw [List.length_take]; omega)] at he
    simp at he

theorem clearStates_length_of_no_auto (l : List BufferEntryType) (idx : Nat)
    (hna : ∀ e ∈ l.drop idx, e.metadata.isAutoAdded = false) :
    (clearStatesStartingAtIdx l idx).length = l.length := by
  unfold clearStatesStartingAtIdx
  rw [List.length_append, List.length_map]
  have hfe : (l.drop idx).filter (fun e => !e.metadata.isAutoAdded) = l.drop idx := by
    rw [List.filter_eq_self]
    intro a ha
    simp [hna a ha]
  rw [hfe]
  have := congrArg List.length (List.take_append_drop idx l)
  rw [List.length_append] at this
  omega

/-! ## Closest-state and index-query helpers -/

theorem stateEntriesIdx_eq_nil {l : List BufferEntryType}
    (h : ∀ e ∈ l, e.HasStates = false) : stateEntriesIdx l = [] := by
  rw [stateEntriesIdx, List.filter_eq_nil_iff]
  intro p hp
  rw [h p.2 (mem_enum_snd hp)]
  simp

theorem getClosestStateL_none_of_no_state {l : List BufferEntryType} {t : ℚ}
    (h : ∀ e ∈ l, e.HasStates = false) : getClosestStateL l t = none := by
  have hnil := stateEntriesIdx_eq_nil h
  unfold getClosestStateL
  rw [hnil]
  rfl

theorem getClosestStateIdx_neg_of_no_state {l : List BufferEntryType} {t : ℚ}
    (h : ∀ e ∈ l, e.HasStates = false) : getClosestStateIdx l t = -1 := by
  unfold getClosestStateIdx
  rw [getClosestStateL_none_of_no_state h]

theorem getEntryAtIdxL_none {l : List BufferEntryType} {i : Int}
    (h : i < 0 ∨ (l.length : Int) ≤ i) : getEntryAtIdxL l i = none := by
  unfold getEntryAtIdxL
  rcases h with h | h
  · rw [if_neg (by omega)]
  · by_cases h0 : 0 ≤ i
    · rw [if_pos h0]
      apply List.getElem?_eq_none
      omega
    · rw [if_neg h0]

theorem getEntryAtIdxL_natCast (l : List BufferEntryType) (n : Nat) :
    getEntryAtIdxL l (n : Int) = l[n]? := by
  unfold getEntryAtIdxL
  rw [if_pos (Int.natCast_nonneg n), Int.toNat_natCast]

theorem mem_of_head?_eq_some {α : Type _} {l : List α} {a : α}
    (h : l.head? = some a) : a ∈ l := by
  cases l with
  | nil => simp at h
  | cons x xs =>
    have hx : x = a := by simpa using h
    rw [← hx]
    exact List.mem_cons_self _ _

theorem getClosestStateL_isSome_of_state {l : List BufferEntryType} {t : ℚ}
    {e : BufferEntryType} (hel : e ∈ l) (hes : e.HasStates = true) :
    (getClosestStateL l t).isSome = true := by
  obtain ⟨p, hps, _⟩ := exists_mem_stateEntriesIdx hel hes
  unfold getClosestStateL
  cases hex : ((stateEntriesIdx l).filter fun q => q.2.timestamp == t).getLast? with
  | some q => rfl
  | none =>
    have hexnil := List.filter_eq_nil_iff.mp (List.getLast?_eq_none_iff.mp hex)
    cases ho : ((stateEntriesIdx l).filter fun q =>
        decide (q.2.timestamp < t)).getLast? with
    | some o =>
      cases hn : ((stateEntriesIdx l).filter fun q =>
          decide (t < q.2.timestamp)).head? with
      | some n =>
        show (if n.2.timestamp - t ≤ t - o.2.timestamp
            then (some n : Option (Nat × BufferEntryType)) else some o).isSome = true
        split <;> rfl
      | none => rfl
    | none =>
      cases hn : ((stateEntriesIdx l).filter fun q =>
          decide (t < q.2.timestamp)).head? with
      | some n => rfl
      | none =>
        exfalso
        have honil := List.filter_eq_nil_iff.mp (List.getLast?_eq_none_iff.mp ho)
        have hnnil := List.filter_eq_nil_iff.mp (List.head?_eq_none_iff.mp hn)
        rcases lt_trichotomy p.2.timestamp t with hlt | heq | hgt
        · exact honil p hps (by simpa using hlt)
        · exact hexnil p hps (by simpa using heq)
        · exact hnnil p hps (by simpa using hgt)

theorem getClosestStateL_mem {l : List BufferEntryType} {t : ℚ}
    {p : Nat × BufferEntryType} (hr : getClosestStateL l t = some p) :
    p ∈ stateEntriesIdx l := by
  unfold getClosestStateL at hr
  cases hex : ((stateEntriesIdx l).filter fun q => q.2.timestamp == t).getLast? with
  | some q =>
    rw [hex] at hr
    cases hr
    exact (List.filter_sublist _).subset (List.mem_of_getLast?_eq_some hex)
  | none =>
    rw [hex] at hr
    cases ho : ((stateEntriesIdx l).filter fun q =>
        decide (q.2.timestamp < t)).getLast? with
    | some o =>
      cases hn : ((stateEntriesIdx l).filter fun q =>
          decide (t < q.2.timestamp)).head? with
      | some n =>
        rw [ho, hn] at hr
        have hr' : (if n.2.timestamp - t ≤ t - o.2.timestamp
            then (some n : Option (Nat × BufferEntryType)) else some o) = some p := hr
        split at hr' <;> cases hr'
        · exact (List.filter_sublist _).subset (mem_of_head?_eq_some hn)
        · exact (List.filter_sublist _).subset (List.mem_of_getLast?_eq_some ho)
      | none =>
        rw [ho, hn] at hr
        cases hr
        exact (List.filter_sublist _).subset (List.mem_of_getLast?_eq_some ho)
    | none =>
      cases hn : ((stateEntriesIdx l).filter fun q =>
          decide (t < q.2.timestamp)).head? with
      | some n =>
        rw [ho, hn] at hr
        cases hr
        exact (List.filter_sublist _).subset (mem_of_head?_eq_some hn)
      | none =>
        rw [ho, hn] at hr
        exact absurd hr (by simp)

/-- The closest-state search rule: the returned entry minimizes the absolute
time distance among all state-bearing entries, and an exact tie in distance
is resolved to the newer entry. -/
theorem getClosestStateL_closest {l : List BufferEntryType} {t : ℚ}
    {p : Nat × BufferEntryType} (hs : List.Pairwise tsR l)
    (hr : getClosestStateL l t = some p) :
    ∀ e ∈ l, e.HasStates = true →
      |p.2.timestamp - t| ≤ |e.timestamp - t| ∧
        (|e.timestamp - t| = |p.2.timestamp - t| → e.timestamp ≤ p.2.timestamp) := by
  have hP := pairwise_stateEntriesIdx hs
  intro e hel hes
  obtain ⟨q, hqs, hqe⟩ := exists_mem_stateEntriesIdx hel hes
  subst hqe
  unfold getClosestStateL at hr
  cases hex : ((stateEntriesIdx l).filter fun r => r.2.timestamp == t).getLast? with
  | some x =>
    rw [hex] at hr
    cases hr
    have hx := List.mem_filter.mp (List.mem_of_getLast?_eq_some hex)
    have hxt : p.2.timestamp = t := by simpa using hx.2
    constructor
    · rw [hxt, sub_self, abs_zero]
      exact abs_nonneg _
    · intro htie
      rw [hxt, sub_self, abs_zero, abs_eq_zero, sub_eq_zero] at htie
      rw [htie, hxt]
  | none =>
    rw [hex] at hr
    have hexnil := List.filter_eq_nil_iff.mp (List.getLast?_eq_none_iff.mp hex)
    have hqt : q.2.timestamp ≠ t := by
      intro hqt
      exact hexnil q hqs (by simpa using hqt)
    have hOp : List.Pairwise (fun a b : Nat × BufferEntryType =>
        a.2.timestamp ≤ b.2.timestamp)
        ((stateEntriesIdx l).filter fun r => decide (r.2.timestamp < t)) :=
      List.Pairwise.sublist (List.filter_sublist _) hP
    have hNp : List.Pairwise (fun a b : Nat × BufferEntryType =>
        a.2.timestamp ≤ b.2.timestamp)
        ((stateEntriesIdx l).filter fun r => decide (t < r.2.timestamp)) :=
      List.Pairwise.sublist (List.filter_sublist _) hP
    cases ho : ((stateEntriesIdx l).filter fun r =>
        decide (r.2.timestamp < t)).getLast? with
    | some o =>
      have hoO := List.mem_filter.mp (List.mem_of_getLast?_eq_some ho)
      have hot : o.2.timestamp < t := by simpa using hoO.2
      cases hn : ((stateEntriesIdx l).filter fun r =>
          decide (t < r.2.timestamp)).head? with
      | some n =>
        have hnN := List.mem_filter.mp (mem_of_head?_eq_some hn)
        have hnt : t < n.2.timestamp := by simpa using hnN.2
        rw [ho, hn] at hr
        have hr' : (if n.2.timestamp - t ≤ t - o.2.timestamp
            then (some n : Option (Nat × BufferEntryType)) else some o) = some p := hr
        rcases lt_or_gt_of_ne hqt with hql | hqg
        · have hqO : q ∈ (stateEntriesIdx l).filter fun r =>
              decide (r.2.timestamp < t) :=
            List.mem_filter.mpr ⟨hqs, by simpa using hql⟩
          have hqo : q.2.timestamp ≤ o.2.timestamp := by
            rcases getLast?_max_of_pairwise hOp ho q hqO with heq | hle
            · rw [heq]
            · exact hle
          split at hr' <;> cases hr'
          · rename_i hcond
            constructor
            · rw [abs_of_pos (sub_pos.mpr hnt), abs_of_neg (sub_neg.mpr hql)]
              linarith
            · intro _
              linarith
          · rename_i hcond
            constructor
            · rw [abs_of_neg (sub_neg.mpr hot), abs_of_neg (sub_neg.mpr hql)]
              linarith
            · intro htie
              rw [abs_of_neg (sub_neg.mpr hql), abs_of_neg (sub_neg.mpr hot)] at htie
              linarith
        · have hqN : q ∈ (stateEntriesIdx l).filter fun r =>
              decide (t < r.2.timestamp) :=
            List.mem_filter.mpr ⟨hqs, by simpa using hqg⟩
          have hnq : n.2.timestamp ≤ q.2.timestamp := by
            rcases head?_min_of_pairwise hNp hn q hqN with heq | hle
            · rw [heq]
            · exact hle
          split at hr' <;> cases hr'
          · rename_i hcond
            constructor
            · rw [abs_of_pos (sub_pos.mpr hnt), abs_of_pos (sub_pos.mpr hqg)]
              linarith
            · intro htie
              rw [abs_of_pos (sub_pos.mpr hqg), abs_of_pos (sub_pos.mpr hnt)] at htie
              linarith
          · rename_i hcond
            have hcond' : t - p.2.timestamp < n.2.timestamp - t := lt_of_not_le hcond
            constructor
            · rw [abs_of_neg (sub_neg.mpr hot), abs_of_pos (sub_pos.mpr hqg)]
              linarith
            · intro htie
              exfalso
              rw [abs_of_pos (sub_pos.mpr hqg), abs_of_neg (sub_neg.mpr hot)] at htie
              linarith
      | none =>
        rw [ho, hn] at hr
        cases hr
        have hnnil := List.filter_eq_nil_iff.mp (List.head?_eq_none_iff.mp hn)
        have hql : q.2.timestamp < t := by
          rcases lt_or_gt_of_ne hqt with h | h
          · exact h
          · exact absurd (by simpa using h) (hnnil q hqs)
        have hqO : q ∈ (stateEntriesIdx l).filter fun r =>
            decide (r.2.timestamp < t) :=
          List.mem_filter.mpr ⟨hqs, by simpa using hql⟩
        have hqo : q.2.timestamp ≤ p.2.timestamp := by
          rcases getLast?_max_of_pairwise hOp ho q hqO with heq | hle
          · rw [heq]
          · exact hle
        have hpt : p.2.timestamp < t := by simpa using hoO.2
        constructor
        · rw [abs_of_neg (sub_neg.mpr hpt), abs_of_neg (sub_neg.mpr hql)]
          linarith
        · intro _
          exact hqo
    | none =>
      have honil := List.filter_eq_nil_iff.mp (List.getLast?_eq_none_iff.mp ho)
      cases hn : ((stateEntriesIdx l).filter fun r =>
          decide (t < r.2.timestamp)).head? with
      | some n =>
        rw [ho, hn] at hr
        cases hr
        have hnN := List.mem_filter.mp (mem_of_head?_eq_some hn)
        have hpt : t < p.2.timestamp := by simpa using hnN.2
        have hqg : t < q.2.timestamp := by
          rcases lt_or_gt_of_ne hqt with h | h
          · exact absurd (by simpa using h) (honil q hqs)
          · exact h
        have hqN : q ∈ (stateEntriesIdx l).filter fun r =>
            decide (t < r.2.timestamp) :=
          List.mem_filter.mpr ⟨hqs, by simpa using hqg⟩
        have hnq : p.2.timestamp ≤ q.2.timestamp := by
          rcases head?_min_of_pairwise hNp hn q hqN with heq | hle
          · rw [heq]
          · exact hle
        constructor
        · rw [abs_of_pos (sub_pos.mpr hpt), abs_of_pos (sub_pos.mpr hqg)]
          linarith
        · intro htie
          rw [abs_of_pos (sub_pos.mpr hqg), abs_of_pos (sub_pos.mpr hpt)] at htie
          linarith
      | none =>
        rw [ho, hn] at hr
        exact absurd hr (by simp)

theorem getLatestSensorHandleStateL_getElem {l : List BufferEntryType} {h : Nat}
    {p : Nat × BufferEntryType} (hr : getLatestSensorHandleStateL l h = some p) :
    l[p.1]? = some p.2 := by
  have hm := List.mem_of_getLast?_eq_some hr
  rw [List.mem_filter] at hm
  exact mem_enum_getElem hm.1

/-! ## Claim theorems -/

/-- Claim C1: eviction never removes the newest state-bearing entry of any
sensor handle (`lastStateFor` is preserved by `RemoveOverflowEntrys` for
every buffer and every handle, and the index chosen for eviction is never a
protected one), and in the documented 20-entry scenario with max size 10
where pose sensor 1 contributes only at timestamps 0, 5 and 9, the final
buffer holds timestamp 9 at index 0 and timestamp 11 at index 1. -/
theorem claim_C1_last_state_protection :
    (∀ (maxSize : Nat) (l : List BufferEntryType) (h : Nat),
        lastStateFor h (removeOverflowEntrys maxSize l) = lastStateFor h l) ∧
    (∀ (l : List BufferEntryType) (i : Nat),
        findEvictIdx l = some i → isLastSensorStateAt l i = false) ∧
    (storageMax3.get_entry_at_idx 0).map (fun e => e.timestamp) = some 9 ∧
    (storageMax3.get_entry_at_idx 1).map (fun e => e.timestamp) = some 11 := by
  refine ⟨lastStateFor_removeOverflowEntrys, ?_, by decide, by decide⟩
  intro l i hf
  exact (findEvictIdx_spec hf).2

/-- Witness for C1: the eviction-candidate rule applied to a concrete
two-entry buffer, whose oldest entry is indeed unprotected. -/
theorem claim_C1_witness :
    isLastSensorStateAt [mkE 0 dataNoState 1, mkE 1 dataNoState 1] 0 = false :=
  claim_C1_last_state_protection.2.1 [mkE 0 dataNoState 1, mkE 1 dataNoState 1] 0
    (by decide)

/-- Claim C2: for every sequence of insertions mixing `AddEntrySorted` and
`InsertDataAtTimestamp`, in arbitrary timestamp order, the buffer is in
non-decreasing timestamp order (`IsSorted` is true) after every call, and
without eviction the length equals the number of inserted entries. -/
theorem claim_C2_sorted_invariant :
    ∀ es : List (Bool × BufferEntryType),
      isSortedL (insertAll es) = true ∧ (insertAll es).length = es.length := by
  intro es
  obtain ⟨h1, h2⟩ := insertAll_aux es [] List.Pairwise.nil
  exact ⟨isSortedL_iff_pairwise.mpr h1, by simpa using h2⟩

/-- Claim C3: for a buffer constructed with max size `m ≥ 1`, inserting
`N > m` entries of one sensor handle with strictly increasing timestamps,
evicting after each insertion, leaves the buffer length exactly `m`. -/
theorem claim_C3_bounded_size (m handle : Nat) (es : List BufferEntryType)
    (hm : 1 ≤ m)
    (hh : ∀ e ∈ es, e.sensor_handle = handle)
    (hstrict : List.Pairwise (fun a b : BufferEntryType => a.timestamp < b.timestamp) es)
    (hN : m < es.length) :
    (es.foldl stepAddEvict (Buffer.init (m : Int))).get_length = m := by
  obtain ⟨hdata, _⟩ := foldl_stepAddEvict_data es (Buffer.init (m : Int))
  unfold Buffer.get_length
  rw [hdata]
  have hmax : (Buffer.init (m : Int)).max_buffer_size.toNat = m := by
    show ((max 1 ((m : Int).natAbs) : Nat) : Int).toNat = m
    rw [Int.toNat_natCast, Int.natAbs_ofNat]
    omega
  rw [hmax]
  have hnil : (Buffer.init (m : Int)).data = [] := rfl
  rw [hnil]
  have hlen := foldl_addEvictStep_length hm es []
    hh (fun e he => absurd he (List.not_mem_nil e)) (Nat.zero_le m)
  rw [hlen]
  simp only [List.length_nil, Nat.zero_add]
  omega

/-- Witness for C3: the `STORAGE_MAX_ENTRY` scenario, max size 10 and 20
unit-spaced entries of one pose sensor, converges to length 10. -/
theorem claim_C3_witness :
    (storageMax1Entries.foldl stepAddEvict (Buffer.init ((10 : Nat) : Int))).get_length = 10 :=
  claim_C3_bounded_size 10 1 storageMax1Entries (by omega) (by decide) (by decide)
    (by decide)

/-- Claim C6: constructing a buffer with a negative requested maximum size
stores the absolute value, whereas a negative setter argument is a silent
no-op retaining the previous value, and a positive setter argument is
stored as given. -/
theorem claim_C6_buffer_size_config :
    (Buffer.init (-100)).get_max_buffer_size = 100 ∧
    ((Buffer.init 100).set_max_buffer_size 200).get_max_buffer_size = 200 ∧
    (((Buffer.init 100).set_max_buffer_size 200).set_max_buffer_size
        (-200)).get_max_buffer_size = 200 ∧
    (∀ (b : Buffer) (s : Int),
        (b.set_max_buffer_size s).get_max_buffer_size =
          if 0 < s then s else b.get_max_buffer_size) := by
  refine ⟨by decide, by decide, by decide, ?_⟩
  intro b s
  unfold Buffer.set_max_buffer_size Buffer.get_max_buffer_size
  split <;> rfl

/-- Counterexample for C5: in the `GET_ENTRY_METHODS` buffer the query for
sensor 1 succeeds and returns the out-of-order entry at timestamp 9, whose
envelope carries no measurement — so the returned entry is not "the newest
entry carrying a measurement" (the literal spec rule would return nothing
at all here). -/
theorem claim_C5_counterexample :
    gemBuffer.get_latest_sensor_handle_measurement 1 =
        some (mkE 9 dataNoState 1 .out_of_order) ∧
    (mkE 9 dataNoState 1 .out_of_order).data.measurement = none ∧
    latestSensorHandleMeasurementSpecRule gemBuffer.data 1 = none := by
  refine ⟨by decide, rfl, by decide⟩

/-- Claim C5 (amended): `get_latest_sensor_handle_measurement` returns the
newest entry of any role for the sensor handle regardless of whether a
measurement payload is present, and fails exactly when the buffer holds no
entry for that handle; in the `GET_ENTRY_METHODS` buffer it returns the
entries at timestamps 9 and 10 for the two sensors. -/
theorem claim_C5_latest_sensor_measurement :
    (∀ (l : List BufferEntryType) (h : Nat),
        getLatestSensorHandleMeasurementL l h = none ↔
          ∀ e ∈ l, e.sensor_handle ≠ h) ∧
    (∀ (l : List BufferEntryType) (h : Nat) (e : BufferEntryType),
        getLatestSensorHandleMeasurementL l h = some e →
          e ∈ l ∧ e.sensor_handle = h) ∧
    (∀ (l : List BufferEntryType) (h : Nat) (e : BufferEntryType),
        isSortedL l = true → getLatestSensorHandleMeasurementL l h = some e →
          ∀ x ∈ l, x.sensor_handle = h → x.timestamp ≤ e.timestamp) ∧
    (gemBuffer.get_latest_sensor_handle_measurement 1).map
        (fun e => e.timestamp) = some 9 ∧
    (gemBuffer.get_latest_sensor_handle_measurement 2).map
        (fun e => e.timestamp) = some 10 := by
  refine ⟨latestSensorMeas_none_iff, ?_, ?_, by decide, by decide⟩
  · intro l h e hr
    exact latestSensorMeas_some hr
  · intro l h e hs hr
    exact latestSensorMeas_newest (isSortedL_iff_pairwise.mp hs) hr

/-- Witness for C5: the newest-entry rule applied to the concrete
`GET_ENTRY_METHODS` buffer and its entry at timestamp 3. -/
theorem claim_C5_witness :
    (mkE 3 dataNoState 1).timestamp ≤ (mkE 9 dataNoState 1 .out_of_order).timestamp :=
  claim_C5_latest_sensor_measurement.2.2.1 gemBuffer.data 1
    (mkE 9 dataNoState 1 .out_of_order) (by decide) (by decide)
    (mkE 3 dataNoState 1) (by decide) (by decide)

/-- Claim C7: `ClearStatesStartingAtIdx idx` leaves entries before `idx`
unchanged, leaves every remaining entry from `idx` on without states and
without an auto-added role, keeps the length unchanged when no auto-added
entry sits at or after `idx`, and removes auto-added entries outright; in
the test scenario, clearing from index 4 of the 10-entry buffer keeps
length 10 with no states from index 4 on, and after appending an
auto-added entry at timestamp 10 a second clearing removes it, leaving 10
entries with newest timestamp 9. -/
theorem claim_C7_clear_states_from_idx :
    (∀ (l : List BufferEntryType) (idx : Nat),
        (clearStatesStartingAtIdx l idx).take idx = l.take idx) ∧
    (∀ (l : List BufferEntryType) (idx : Nat),
        ∀ e ∈ (clearStatesStartingAtIdx l idx).drop idx,
          e.HasStates = false ∧ e.metadata.isAutoAdded = false) ∧
    (∀ (l : List BufferEntryType) (idx : Nat),
        (∀ e ∈ l.drop idx, e.metadata.isAutoAdded = false) →
          (clearStatesStartingAtIdx l idx).length = l.length) ∧
    rsCleared.get_length = 10 ∧
    ((rsCleared.data.drop 4).all fun e => !e.HasStates) = true ∧
    rsWithAuto.get_length = 11 ∧
    (rsWithAuto.get_latest_entry).map (fun e => e.timestamp) = some 10 ∧
    (rsWithAuto.ClearStatesStartingAtIdx 4).get_length = 10 ∧
    ((rsWithAuto.ClearStatesStartingAtIdx 4).get_latest_entry).map
        (fun e => e.timestamp) = some 9 := by
  exact ⟨clearStates_take, clearStates_drop, clearStates_length_of_no_auto,
    by decide, by decide, by decide, by decide, by decide, by decide⟩

/-- Witness for C7: the length-preservation rule applied to the concrete
10-entry test buffer, which holds no auto-added entry. -/
theorem claim_C7_witness :
    (clearStatesStartingAtIdx rsBuffer.data 4).length = rsBuffer.data.length :=
  claim_C7_clear_states_from_idx.2.2.1 rsBuffer.data 4 (by decide)

/-- Claim C8: on a freshly constructed buffer every query fails (returns
`none`) and every index output is `-1`; `get_entry_at_idx` fails for a
negative or too-large index on any buffer; and `get_closest_state` fails
with index output `-1` on any buffer holding no state-bearing entry. -/
theorem claim_C8_empty_buffer_queries :
    (∀ sz : Int, (Buffer.init sz).IsEmpty = true) ∧
    (∀ sz : Int, (Buffer.init sz).get_latest_state = none) ∧
    (∀ sz : Int, (Buffer.init sz).get_oldest_state = none) ∧
    (∀ sz : Int, (Buffer.init sz).get_latest_entry = none) ∧
    (∀ sz : Int, (Buffer.init sz).get_latest_init_state = none) ∧
    (∀ (sz : Int) (h : Nat),
        (Buffer.init sz).get_latest_sensor_handle_state h = none) ∧
    (∀ (sz : Int) (h : Nat),
        (Buffer.init sz).get_latest_sensor_handle_state_idx h = -1) ∧
    (∀ (sz : Int) (h : Nat),
        (Buffer.init sz).get_latest_sensor_handle_measurement h = none) ∧
    (∀ (sz : Int) (t : ℚ), (Buffer.init sz).get_closest_state t = none) ∧
    (∀ (sz : Int) (t : ℚ), (Buffer.init sz).get_closest_state_idx t = -1) ∧
    (∀ (sz i : Int), (Buffer.init sz).get_entry_at_idx i = none) ∧
    (∀ (l : List BufferEntryType) (i : Int),
        i < 0 ∨ (l.length : Int) ≤ i → getEntryAtIdxL l i = none) ∧
    (∀ (l : List BufferEntryType) (t : ℚ),
        (∀ e ∈ l, e.HasStates = false) →
          getClosestStateL l t = none ∧ getClosestStateIdx l t = -1) := by
  refine ⟨fun _ => rfl, fun _ => rfl, fun _ => rfl, fun _ => rfl, fun _ => rfl,
    fun _ _ => rfl, fun _ _ => rfl, fun _ _ => rfl, fun _ _ => rfl, fun _ _ => rfl,
    ?_, ?_, ?_⟩
  · intro sz i
    unfold Buffer.get_entry_at_idx getEntryAtIdxL
    split <;> rfl
  · intro l i h
    exact getEntryAtIdxL_none h
  · intro l t h
    exact ⟨getClosestStateL_none_of_no_state h, getClosestStateIdx_neg_of_no_state h⟩

/-- Witness for C8: an out-of-range index and a state-free non-empty buffer
from the test suite, both failing concretely. -/
theorem claim_C8_witness :
    getEntryAtIdxL gcsMeasOnly.data 4 = none ∧
    getClosestStateL gcsMeasOnly.data 2 = none ∧
    getClosestStateIdx gcsMeasOnly.data 2 = -1 := by
  refine ⟨claim_C8_empty_buffer_queries.2.2.2.2.2.2.2.2.2.2.2.1 gcsMeasOnly.data 4
    (Or.inr (by decide)), ?_, ?_⟩
  · exact (claim_C8_empty_buffer_queries.2.2.2.2.2.2.2.2.2.2.2.2 gcsMeasOnly.data 2
      (by decide)).1
  · exact (claim_C8_empty_buffer_queries.2.2.2.2.2.2.2.2.2.2.2.2 gcsMeasOnly.data 2
      (by decide)).2

/-- Claim C9: whenever `get_latest_sensor_handle_state` or
`get_closest_state` succeeds, the returned index is the position of the
returned entry in the buffer, so `get_entry_at_idx` at that index succeeds
with the very same entry; concretely, sensor 1's latest state reports
index 7 at timestamp 7, sensor 2's reports index 8 at timestamp 8, and the
closest state to timestamp 6 reports index 6. -/
theorem claim_C9_index_output_consistency :
    (∀ (l : List BufferEntryType) (h : Nat) (p : Nat × BufferEntryType),
        getLatestSensorHandleStateL l h = some p →
          getEntryAtIdxL l (p.1 : Int) = some p.2) ∧
    (∀ (l : List BufferEntryType) (t : ℚ) (p : Nat × BufferEntryType),
        getClosestStateL l t = some p →
          getEntryAtIdxL l (p.1 : Int) = some p.2) ∧
    (gemBuffer.get_latest_sensor_handle_state 1).map
        (fun p => (p.1, p.2.timestamp)) = some (7, 7) ∧
    (gemBuffer.get_latest_sensor_handle_state 2).map
        (fun p => (p.1, p.2.timestamp)) = some (8, 8) ∧
    (gcsBuffer.get_closest_state 6).map
        (fun p => (p.1, p.2.timestamp)) = some (6, 6) := by
  refine ⟨?_, ?_, by decide, by decide, by decide⟩
  · intro l h p hr
    rw [getEntryAtIdxL_natCast]
    exact getLatestSensorHandleStateL_getElem hr
  · intro l t p hr
    rw [getEntryAtIdxL_natCast]
    exact stateEntriesIdx_getElem (getClosestStateL_mem hr)

/-- Witness for C9: both index rules applied to the concrete test buffers. -/
theorem claim_C9_witness :
    getEntryAtIdxL gemBuffer.data 7 = some (mkE 7 dataWithState 1) ∧
    getEntryAtIdxL gcsBuffer.data 6 = some (mkE 6 dataWithState 1) := by
  constructor
  · have := claim_C9_index_output_consistency.1 gemBuffer.data 1
      (7, mkE 7 dataWithState 1) (by decide)
    simpa using this
  · have := claim_C9_index_output_consistency.2.1 gcsBuffer.data 6
      (6, mkE 6 dataWithState 1) (by decide)
    simpa using this

/-- Claim C10: a measurement-only entry sharing the queried timestamp does
not mask a state-bearing entry at that timestamp: `get_closest_state`
succeeds whenever any state-bearing entry exists, and in particular
succeeds on the test buffer holding a measurement-only entry and a
state-bearing entry both at timestamp 0. -/
theorem claim_C10_duplicate_timestamp_query :
    (∀ (l : List BufferEntryType) (t : ℚ) (e : BufferEntryType),
        e ∈ l → e.HasStates = true → (getClosestStateL l t).isSome = true) ∧
    (oneStateBuffer.get_closest_state 0).isSome = true ∧
    (oneStateBuffer.get_closest_state 0).map
        (fun p => (p.2.timestamp, p.2.HasStates)) = some (0, true) := by
  refine ⟨?_, by decide, by decide⟩
  intro l t e hel hes
  exact getClosestStateL_isSome_of_state hel hes

/-- Witness for C10: the success rule applied to the concrete two-entry
buffer of the test. -/
theorem claim_C10_witness :
    (getClosestStateL oneStateBuffer.data 0).isSome = true :=
  claim_C10_duplicate_timestamp_query.1 oneStateBuffer.data 0
    (mkE 0 dataWithState 3) (by decide) (by decide)

/-- Claim C4: `get_closest_state` considers only state-bearing entries and
returns one of them; on a sorted buffer the returned entry minimizes the
absolute time distance, resolving an exact distance tie to the newer entry,
so an exact timestamp match is returned directly, a query newer than every
state returns the newest state and a query older than every state returns
the oldest; concretely on the test buffer with states at 4, 6, 7, 9:
querying 6 returns 6, querying 8 returns 9, querying 6.1 returns 6,
querying 6.9 returns 7 and querying 10 returns 9. -/
theorem claim_C4_closest_state_rule :
    (∀ (l : List BufferEntryType) (t : ℚ) (p : Nat × BufferEntryType),
        getClosestStateL l t = some p → p.2 ∈ l ∧ p.2.HasStates = true) ∧
    (∀ (l : List BufferEntryType) (t : ℚ) (p : Nat × BufferEntryType),
        isSortedL l = true → getClosestStateL l t = some p →
          ∀ e ∈ l, e.HasStates = true →
            |p.2.timestamp - t| ≤ |e.timestamp - t| ∧
              (|e.timestamp - t| = |p.2.timestamp - t| →
                e.timestamp ≤ p.2.timestamp)) ∧
    (∀ (l : List BufferEntryType) (t : ℚ),
        isSortedL l = true →
          (∃ e ∈ l, e.HasStates = true ∧ e.timestamp = t) →
          ∃ p, getClosestStateL l t = some p ∧ p.2.timestamp = t) ∧
    (∀ (l : List BufferEntryType) (t : ℚ) (p : Nat × BufferEntryType),
        isSortedL l = true → getClosestStateL l t = some p →
          (∀ e ∈ l, e.HasStates = true → e.timestamp ≤ t) →
          ∀ e ∈ l, e.HasStates = true → e.timestamp ≤ p.2.timestamp) ∧
    (∀ (l : List BufferEntryType) (t : ℚ) (p : Nat × BufferEntryType),
        isSortedL l = true → getClosestStateL l t = some p →
          (∀ e ∈ l, e.HasStates = true → t ≤ e.timestamp) →
          ∀ e ∈ l, e.HasStates = true → p.2.timestamp ≤ e.timestamp) ∧
    (gcsBuffer.get_closest_state 6).map (fun p => p.2.timestamp) = some 6 ∧
    (gcsBuffer.get_closest_state 8).map (fun p => p.2.timestamp) = some 9 ∧
    (gcsBuffer.get_closest_state ((61 : ℚ) / 10)).map
        (fun p => p.2.timestamp) = some 6 ∧
    (gcsBuffer.get_closest_state ((69 : ℚ) / 10)).map
        (fun p => p.2.timestamp) = some 7 ∧
    (gcsBuffer.get_closest_state 10).map (fun p => p.2.timestamp) = some 9 := by
  have hmem : ∀ (l : List BufferEntryType) (t : ℚ) (p : Nat × BufferEntryType),
      getClosestStateL l t = some p → p.2 ∈ l ∧ p.2.HasStates = true := by
    intro l t p hr
    exact mem_stateEntriesIdx (getClosestStateL_mem hr)
  have hclosest : ∀ (l : List BufferEntryType) (t : ℚ) (p : Nat × BufferEntryType),
      isSortedL l = true → getClosestStateL l t = some p →
        ∀ e ∈ l, e.HasStates = true →
          |p.2.timestamp - t| ≤ |e.timestamp - t| ∧
            (|e.timestamp - t| = |p.2.timestamp - t| →
              e.timestamp ≤ p.2.timestamp) := by
    intro l t p hs hr
    exact getClosestStateL_closest (isSortedL_iff_pairwise.mp hs) hr
  refine ⟨hmem, hclosest, ?_, ?_, ?_, by decide, by with_unfolding_all decide,
    by with_unfolding_all decide, by with_unfolding_all decide, by decide⟩
  · rintro l t hs ⟨e0, he0l, he0s, he0t⟩
    have hsome := getClosestStateL_isSome_of_state (t := t) he0l he0s
    obtain ⟨p, hp⟩ := Option.isSome_iff_exists.mp hsome
    refine ⟨p, hp, ?_⟩
    have hmin := (hclosest l t p hs hp e0 he0l he0s).1
    rw [he0t, sub_self, abs_zero] at hmin
    have h0 : |p.2.timestamp - t| = 0 := le_antisymm hmin (abs_nonneg _)
    rw [abs_eq_zero, sub_eq_zero] at h0
    exact h0
  · intro l t p hs hr hall e hel hes
    have hmin := (hclosest l t p hs hr e hel hes).1
    obtain ⟨hpl, hps⟩ := hmem l t p hr
    have hpt : p.2.timestamp ≤ t := hall p.2 hpl hps
    have het : e.timestamp ≤ t := hall e hel hes
    rw [abs_of_nonpos (by linarith), abs_of_nonpos (by linarith)] at hmin
    linarith
  · intro l t p hs hr hall e hel hes
    have hmin := (hclosest l t p hs hr e hel hes).1
    obtain ⟨hpl, hps⟩ := hmem l t p hr
    have hpt : t ≤ p.2.timestamp := hall p.2 hpl hps
    have het : t ≤ e.timestamp := hall e hel hes
    rw [abs_of_nonneg (by linarith), abs_of_nonneg (by linarith)] at hmin
    linarith

/-- Witness for C4: the distance-minimality rule applied to the concrete
test buffer, where the state at timestamp 6 is at least as close to the
query 6 as the state at timestamp 4. -/
theorem claim_C4_witness :
    |(mkE 6 dataWithState 1).timestamp - (6 : ℚ)| ≤
      |(mkE 4 dataWithState 1 .init).timestamp - (6 : ℚ)| :=
  (claim_C4_closest_state_rule.2.1 gcsBuffer.data 6 (6, mkE 6 dataWithState 1)
    (by decide) (by decide) (mkE 4 dataWithState 1 .init) (by decide)
    (by decide)).1

end Mars
